import Mathlib

/-!
Verification development for the StatsCalculator repository.

The repository has two components:
  - a statistics accumulator (class StatsCalculator): an ordered sequence of
    double-precision samples with sum / mean / population-standard-deviation
    queries (declared in StatsCalculator.h; the method bodies live in a
    translation unit not present in the sources, so they are modelled from the
    spec where noted);
  - a handle registry (StatsCalculatorCAPI.cpp): a global
    std::map from int handles to StatsCalculator instances, with C API
    functions statsCalcCreate, statsCalcDestroy, statsCalcAppendValue,
    statsCalcReadFile, statsCalcWriteStats, statsCalcGetSum, statsCalcGetMean,
    statsCalcGetStdDev.

Modelling choices:
  - C++ double is modelled by the type Dbl: an exact rational extended with a
    NaN element. The properties verified here concern the order and structure
    of the arithmetic (left-to-right folds, which formula is computed, NaN
    production on division by zero), not rounding, so exact rationals stand in
    for finite floats. Division by zero yields NaN; in this program the only
    division is by the sample count, whose numerator is the empty sum 0.0
    whenever the count is zero, so the 0/0 = NaN case is the only one that is
    ever reached. Square root is modelled by a caller-supplied approximation
    on the non-negative rationals, wrapped so that NaN and negative inputs map
    to NaN; every theorem about it holds for all such approximations.
  - std::map<int, StatsCalculator> is modelled as an association list kept in
    strictly increasing key order (the std::map class invariant, stated as
    SortedKeys below). rbegin() on a non-empty map is the last element of that
    list; emplace_hint at end() with a key larger than every stored key
    appends at the end; find / at / erase operate on the first (unique)
    matching key. C++ int overflow is undefined behaviour and is never reached
    by the properties below, so handles are modelled as mathematical integers.
-/

/-- Model of a C++ double value: an exact rational (standing in for a finite
float) or NaN. -/
inductive Dbl where
  | fin (q : ℚ)
  | nan
deriving DecidableEq

namespace Dbl

/-- Floating-point addition: NaN propagates, finite values add. -/
def add : Dbl → Dbl → Dbl
  | fin a, fin b => fin (a + b)
  | _, _ => nan

/-- Floating-point subtraction: NaN propagates, finite values subtract. -/
def sub : Dbl → Dbl → Dbl
  | fin a, fin b => fin (a - b)
  | _, _ => nan

/-- Floating-point multiplication: NaN propagates, finite values multiply. -/
def mul : Dbl → Dbl → Dbl
  | fin a, fin b => fin (a * b)
  | _, _ => nan

/-- Floating-point division: NaN propagates, division by zero yields NaN
(the only division the program performs with a zero divisor is 0.0 / 0,
which is NaN under IEEE semantics), otherwise finite values divide. -/
def div : Dbl → Dbl → Dbl
  | fin a, fin b => if b = 0 then nan else fin (a / b)
  | _, _ => nan

/-- Floating-point square root, parametrised by an approximation f on the
rationals: NaN and negative inputs yield NaN, non-negative finite inputs are
mapped through f. -/
def sqrtWith (f : ℚ → ℚ) : Dbl → Dbl
  | fin q => if q < 0 then nan else fin (f q)
  | nan => nan

/-- Conversion of a sample count to a double. -/
def ofCount (n : Nat) : Dbl := fin n

end Dbl

/-- The StatsCalculator class: its single member datum is the vector
numericValues of stored samples, in insertion order. -/
structure StatsCalculator where
  numericValues : List Dbl
deriving DecidableEq

namespace StatsCalculator

/-- Modelled from the spec: StatsCalculator::getSum / computeSum (the body is
in a translation unit absent from the sources). Returns the arithmetic sum of
all samples currently stored, in insertion order (left-to-right accumulation),
0.0 if empty. -/
def getSum (sc : StatsCalculator) : Dbl :=
  sc.numericValues.foldl Dbl.add (Dbl.fin 0)

/-- Modelled from the spec: StatsCalculator::getMean / computeMean (the body
is in a translation unit absent from the sources). Returns sum divided by the
sample count; with zero samples the underlying arithmetic yields the
floating-point division-by-zero result NaN. -/
def getMean (sc : StatsCalculator) : Dbl :=
  Dbl.div sc.getSum (Dbl.ofCount sc.numericValues.length)

/-- Modelled from the spec: StatsCalculator::getStandardDeviation /
computeStandardDeviation (the body is in a translation unit absent from the
sources). Returns the population standard deviation
sqrt(sum((x_i - mean)^2) / count), dividing by count, not count - 1. -/
def getStandardDeviation (f : ℚ → ℚ) (sc : StatsCalculator) : Dbl :=
  Dbl.sqrtWith f
    (Dbl.div
      ((sc.numericValues.map
          (fun x => Dbl.mul (Dbl.sub x sc.getMean) (Dbl.sub x sc.getMean))).foldl
        Dbl.add (Dbl.fin 0))
      (Dbl.ofCount sc.numericValues.length))

/-- Modelled from the spec: StatsCalculator::appendValue (the body is in a
translation unit absent from the sources). Appends value to the end of the
numericValues member datum. -/
def appendValue (v : Dbl) (sc : StatsCalculator) : StatsCalculator :=
  ⟨sc.numericValues ++ [v]⟩

/-- Modelled from the spec: StatsCalculator::readFile (the body is in a
translation unit absent from the sources). The file-reading collaborator
yields a list of parsed numeric values in left-to-right order; readFile
appends them all to the numericValues member datum in that order. The file is
modelled by the list of values it yields. -/
def readFile (vals : List Dbl) (sc : StatsCalculator) : StatsCalculator :=
  ⟨sc.numericValues ++ vals⟩

end StatsCalculator

/-- The global std::map<int, StatsCalculator> statsCalculators, modelled as an
association list in strictly increasing key order (see SortedKeys). -/
abbrev Registry := List (Int × StatsCalculator)

/-- The std::map class invariant: keys are in strictly increasing order. -/
def SortedKeys (r : Registry) : Prop :=
  List.Chain' (fun p q => p.1 < q.1) r

instance : DecidablePred SortedKeys := fun r =>
  inferInstanceAs (Decidable (List.Chain' _ r))

/-- statsCalcCreate: the new key is 0 if the map is empty, otherwise
rbegin()->first + 1 (the last element of the key-sorted map, plus one); the
pair (key, StatsCalculator()) is inserted with emplace_hint at end(), which
appends it after every stored element, and the key of the inserted pair is
returned. -/
def statsCalcCreate (r : Registry) : Int × Registry :=
  let key : Int :=
    match r.getLast? with
    | none => 0
    | some p => p.1 + 1
  (key, r ++ [(key, ⟨[]⟩)])

/-- statsCalcDestroy: find(handle); erase the found element if present,
otherwise a no-op. -/
def statsCalcDestroy (h : Int) (r : Registry) : Registry :=
  r.eraseP (fun p => p.1 == h)

/-- Lookup modelling statsCalculators.at(handle): the mapped StatsCalculator
when the handle is a stored key, none when at() would throw std::out_of_range. -/
def findEntry (h : Int) (r : Registry) : Option StatsCalculator :=
  (r.find? (fun p => p.1 == h)).map Prod.snd

/-- Update-in-place of the element with the given key, if present: models
calling a mutating method on statsCalculators.at(handle). Absent keys leave
the registry unchanged (the std::out_of_range path, caught and swallowed by
the C API wrappers). -/
def updateEntry (h : Int) (g : StatsCalculator → StatsCalculator) :
    Registry → Registry
  | [] => []
  | p :: ps =>
      if p.1 == h then (p.1, g p.2) :: ps else p :: updateEntry h g ps

/-- statsCalcAppendValue: at(handle).appendValue(value), with the
std::out_of_range exception caught and intentionally ignored. -/
def statsCalcAppendValue (h : Int) (v : Dbl) (r : Registry) : Registry :=
  updateEntry h (StatsCalculator.appendValue v) r

/-- statsCalcReadFile: at(handle).readFile(fileName), with the
std::out_of_range exception caught and intentionally ignored. The file is
modelled by the list of numeric values it yields. -/
def statsCalcReadFile (h : Int) (vals : List Dbl) (r : Registry) : Registry :=
  updateEntry h (StatsCalculator.readFile vals) r

/-- statsCalcWriteStats: at(handle).writeStats(fileName), with the
std::out_of_range exception caught and intentionally ignored. Modelled from
the spec: writeStats renders the summary (sum, mean, standard deviation) of
the instance to the output file without mutating it; the rendered summary is
returned here as the first component (none when the handle is unknown), and
the registry is returned unchanged. -/
def statsCalcWriteStats (f : ℚ → ℚ) (h : Int) (r : Registry) :
    Option (Dbl × Dbl × Dbl) × Registry :=
  match findEntry h r with
  | none => (none, r)
  | some sc =>
      (some (sc.getSum, sc.getMean, sc.getStandardDeviation f), r)

/-- statsCalcGetSum: at(handle).getSum(), returning the default 0.0 when at()
throws std::out_of_range. -/
def statsCalcGetSum (h : Int) (r : Registry) : Dbl :=
  match findEntry h r with
  | some sc => sc.getSum
  | none => Dbl.fin 0

/-- statsCalcGetMean: at(handle).getMean(), returning the default 0.0 when
at() throws std::out_of_range. -/
def statsCalcGetMean (h : Int) (r : Registry) : Dbl :=
  match findEntry h r with
  | some sc => sc.getMean
  | none => Dbl.fin 0

/-- statsCalcGetStdDev: at(handle).getStandardDeviation(), returning the
default 0.0 when at() throws std::out_of_range. -/
def statsCalcGetStdDev (f : ℚ → ℚ) (h : Int) (r : Registry) : Dbl :=
  match findEntry h r with
  | some sc => sc.getStandardDeviation f
  | none => Dbl.fin 0

/-- One C API call, for reasoning about reachable registry states. Queries
carry their handle; their results do not affect the registry. -/
inductive COp where
  | create
  | destroy (h : Int)
  | append (h : Int) (v : Dbl)
  | readF (h : Int) (vals : List Dbl)
  | writeS (h : Int)
  | qSum (h : Int)
  | qMean (h : Int)
  | qStdDev (h : Int)

/-- Effect of one C API call on the global registry. The writeStats and query
calls leave the registry component unchanged for every square-root
approximation, so the identity approximation is used for the registry
projection. -/
def applyOp (r : Registry) : COp → Registry
  | .create => (statsCalcCreate r).2
  | .destroy h => statsCalcDestroy h r
  | .append h v => statsCalcAppendValue h v r
  | .readF h vals => statsCalcReadFile h vals r
  | .writeS h => (statsCalcWriteStats id h r).2
  | .qSum _ => r
  | .qMean _ => r
  | .qStdDev _ => r

/-- Run a sequence of C API calls from a starting registry state. -/
def runOps (r : Registry) (ops : List COp) : Registry :=
  ops.foldl applyOp r

/-- Registry states reachable from the initially empty global map by some
sequence of C API calls. -/
def Reachable (r : Registry) : Prop :=
  ∃ ops : List COp, runOps [] ops = r

/-- One mutation of a single accumulator through the C API: either a single
appended value or a whole file of values. -/
inductive AppendOp where
  | one (v : Dbl)
  | file (vals : List Dbl)

/-- The values a sequence of mutations hands to the accumulator, in the order
they are appended. -/
def appendedValues : List AppendOp → List Dbl
  | [] => []
  | .one v :: t => v :: appendedValues t
  | .file vs :: t => vs ++ appendedValues t

/-- Run a sequence of mutations addressed to handle h through the C API. -/
def runAppendOps (h : Int) : List AppendOp → Registry → Registry
  | [], r => r
  | .one v :: t, r => runAppendOps h t (statsCalcAppendValue h v r)
  | .file vs :: t, r => runAppendOps h t (statsCalcReadFile h vs r)

/-- All keys of the registry are non-negative. -/
def NonNegKeys (r : Registry) : Prop := ∀ p ∈ r, 0 ≤ p.1

lemma statsCalcCreate_snd (r : Registry) :
    (statsCalcCreate r).2
      = r ++ [((statsCalcCreate r).1, (⟨[]⟩ : StatsCalculator))] := by
  unfold statsCalcCreate
  cases r.getLast? <;> rfl

lemma sortedKeys_le_getLast? :
    ∀ {r : Registry} {q : Int × StatsCalculator}, SortedKeys r →
      r.getLast? = some q → ∀ p ∈ r, p.1 ≤ q.1 := by
  intro r
  induction r with
  | nil => intro q _ hq; simp at hq
  | cons a t ih =>
    intro q hs hq p hp
    cases t with
    | nil =>
      simp only [List.getLast?_singleton, Option.some.injEq] at hq
      simp only [List.mem_singleton] at hp
      subst hq; subst hp; exact le_refl _
    | cons b t2 =>
      rw [List.getLast?_cons_cons] at hq
      rw [SortedKeys, List.chain'_cons] at hs
      rcases List.mem_cons.1 hp with rfl | hp2
      · exact le_of_lt (lt_of_lt_of_le hs.1
          (ih hs.2 hq b (List.mem_cons_self b t2)))
      · exact ih hs.2 hq p hp2

lemma create_key_gt {r : Registry} (hs : SortedKeys r) :
    ∀ p ∈ r, p.1 < (statsCalcCreate r).1 := by
  intro p hp
  unfold statsCalcCreate
  cases hq : r.getLast? with
  | none =>
    rw [List.getLast?_eq_none_iff] at hq
    subst hq; simp at hp
  | some q =>
    simp only []
    have := sortedKeys_le_getLast? hs hq p hp
    omega

lemma findEntry_eq_none {h : Int} {r : Registry} :
    findEntry h r = none ↔ ∀ p ∈ r, p.1 ≠ h := by
  simp [findEntry, List.find?_eq_none]

lemma findEntry_append_self {r : Registry} {k : Int} {e : StatsCalculator}
    (hk : ∀ p ∈ r, p.1 ≠ k) : findEntry k (r ++ [(k, e)]) = some e := by
  have hnone : r.find? (fun p => p.1 == k) = none :=
    List.find?_eq_none.2 (by simpa using hk)
  simp [findEntry, List.find?_append, hnone]

lemma findEntry_append_ne {r : Registry} {k h : Int} {e : StatsCalculator}
    (hne : h ≠ k) : findEntry h (r ++ [(k, e)]) = findEntry h r := by
  have hnone : List.find? (fun p => p.1 == h) [(k, e)] = none := by
    rw [List.find?_eq_none]
    intro x hx
    simp only [List.mem_singleton] at hx
    subst hx
    simp only [beq_iff_eq]
    exact fun hkh => hne hkh.symm
  simp [findEntry, List.find?_append, hnone]

lemma updateEntry_not_mem {h : Int} {g : StatsCalculator → StatsCalculator} :
    ∀ {r : Registry}, (∀ p ∈ r, p.1 ≠ h) → updateEntry h g r = r := by
  intro r
  induction r with
  | nil => intro _; rfl
  | cons a t ih =>
    intro hk
    have ha : ¬(a.1 == h) = true := by
      simp only [beq_iff_eq]
      exact hk a (List.mem_cons_self a t)
    simp only [updateEntry, if_neg ha, List.cons.injEq, true_and]
    exact ih fun p hp => hk p (List.mem_cons_of_mem a hp)

lemma findEntry_updateEntry_self {h : Int}
    {g : StatsCalculator → StatsCalculator} :
    ∀ {r : Registry},
      findEntry h (updateEntry h g r) = (findEntry h r).map g := by
  intro r
  induction r with
  | nil => rfl
  | cons a t ih =>
    by_cases ha : (a.1 == h) = true
    · simp [updateEntry, findEntry, List.find?, ha]
    · simp only [updateEntry, if_neg ha]
      simpa [findEntry, List.find?, ha] using ih

lemma mem_updateEntry {h : Int} {g : StatsCalculator → StatsCalculator} :
    ∀ {r : Registry} {p : Int × StatsCalculator},
      p ∈ updateEntry h g r → ∃ q ∈ r, p.1 = q.1 := by
  intro r
  induction r with
  | nil => intro p hp; simp [updateEntry] at hp
  | cons a t ih =>
    intro p hp
    by_cases ha : (a.1 == h) = true
    · simp only [updateEntry, if_pos ha] at hp
      rcases List.mem_cons.1 hp with rfl | hp2
      · exact ⟨a, List.mem_cons_self a t, rfl⟩
      · exact ⟨p, List.mem_cons_of_mem a hp2, rfl⟩
    · simp only [updateEntry, if_neg ha] at hp
      rcases List.mem_cons.1 hp with rfl | hp2
      · exact ⟨p, List.mem_cons_self p t, rfl⟩
      · rcases ih hp2 with ⟨q, hq, hpq⟩
        exact ⟨q, List.mem_cons_of_mem a hq, hpq⟩

lemma nonNeg_create {r : Registry} (hr : NonNegKeys r) :
    0 ≤ (statsCalcCreate r).1 ∧ NonNegKeys (statsCalcCreate r).2 := by
  have hkey : 0 ≤ (statsCalcCreate r).1 := by
    unfold statsCalcCreate
    cases hq : r.getLast? with
    | none => simp
    | some q =>
      simp only []
      have := hr q (List.mem_of_mem_getLast? hq)
      omega
  refine ⟨hkey, ?_⟩
  intro p hp
  rw [statsCalcCreate_snd] at hp
  rcases List.mem_append.1 hp with hp1 | hp2
  · exact hr p hp1
  · simp only [List.mem_singleton] at hp2
    subst hp2
    exact hkey

lemma nonNeg_applyOp {r : Registry} (hr : NonNegKeys r) :
    ∀ op : COp, NonNegKeys (applyOp r op) := by
  intro op
  cases op with
  | create => exact (nonNeg_create hr).2
  | destroy h =>
    intro p hp
    exact hr p ((List.eraseP_sublist r).subset hp)
  | append h v =>
    intro p hp
    rcases mem_updateEntry hp with ⟨q, hq, hpq⟩
    rw [hpq]; exact hr q hq
  | readF h vals =>
    intro p hp
    rcases mem_updateEntry hp with ⟨q, hq, hpq⟩
    rw [hpq]; exact hr q hq
  | writeS h =>
    intro p hp
    simp only [applyOp, statsCalcWriteStats] at hp
    cases hfe : findEntry h r with
    | none => rw [hfe] at hp; exact hr p hp
    | some sc => rw [hfe] at hp; exact hr p hp
  | qSum h => exact hr
  | qMean h => exact hr
  | qStdDev h => exact hr

lemma nonNeg_runOps :
    ∀ {ops : List COp} {r : Registry}, NonNegKeys r →
      NonNegKeys (runOps r ops) := by
  intro ops
  induction ops with
  | nil => intro r hr; exact hr
  | cons op t ih =>
    intro r hr
    exact ih (nonNeg_applyOp hr op)

lemma findEntry_runAppendOps {h : Int} :
    ∀ {ops : List AppendOp} {r : Registry} {vs : List Dbl},
      findEntry h r = some ⟨vs⟩ →
      findEntry h (runAppendOps h ops r) = some ⟨vs ++ appendedValues ops⟩ := by
  intro ops
  induction ops with
  | nil => intro r vs hfe; simpa [runAppendOps, appendedValues] using hfe
  | cons op t ih =>
    intro r vs hfe
    cases op with
    | one v =>
      have hstep : findEntry h (statsCalcAppendValue h v r)
          = some ⟨vs ++ [v]⟩ := by
        rw [statsCalcAppendValue, findEntry_updateEntry_self, hfe]
        rfl
      have := ih hstep
      simpa [runAppendOps, appendedValues, List.append_assoc] using this
    | file ws =>
      have hstep : findEntry h (statsCalcReadFile h ws r)
          = some ⟨vs ++ ws⟩ := by
        rw [statsCalcReadFile, findEntry_updateEntry_self, hfe]
        rfl
      have := ih hstep
      simpa [runAppendOps, appendedValues, List.append_assoc] using this

lemma statsCalcCreate_fst (r : Registry) :
    (statsCalcCreate r).1
      = match r.getLast? with
        | none => 0
        | some p => p.1 + 1 := by
  unfold statsCalcCreate
  cases r.getLast? <;> rfl

lemma mem_of_findEntry {h : Int} {r : Registry} {sc : StatsCalculator}
    (hfe : findEntry h r = some sc) : ∃ p ∈ r, p.1 = h ∧ p.2 = sc := by
  rcases Option.map_eq_some'.1 hfe with ⟨a, ha, hasc⟩
  refine ⟨a, List.mem_of_find?_eq_some ha, ?_, hasc⟩
  have := List.find?_some ha
  simpa [beq_iff_eq] using this

/-- C1: for every valid registry state (keys in strictly increasing order,
the std::map class invariant), statsCalcCreate returns 0 when the registry is
empty, returns (maximum currently-live handle) + 1 when it is non-empty, and
inserts a fresh empty accumulator under the returned handle. -/
theorem create_assigns_max_plus_one (r : Registry) (hs : SortedKeys r) :
    (r = [] → (statsCalcCreate r).1 = 0) ∧
    (r ≠ [] → ∃ m : Int, m ∈ r.map Prod.fst ∧ (∀ p ∈ r, p.1 ≤ m) ∧
      (statsCalcCreate r).1 = m + 1) ∧
    findEntry (statsCalcCreate r).1 (statsCalcCreate r).2
      = some ⟨[]⟩ := by
  refine ⟨?_, ?_, ?_⟩
  · intro hr; subst hr; rfl
  · intro hr
    cases hq : r.getLast? with
    | none => exact absurd (List.getLast?_eq_none_iff.1 hq) hr
    | some q =>
      refine ⟨q.1, ?_, ?_, ?_⟩
      · exact List.mem_map.2 ⟨q, List.mem_of_mem_getLast? hq, rfl⟩
      · exact sortedKeys_le_getLast? hs hq
      · rw [statsCalcCreate_fst, hq]
  · rw [statsCalcCreate_snd]
    exact findEntry_append_self
      (fun p hp => ne_of_lt (create_key_gt hs p hp))

/-- C1 witness: the theorem instantiated at the sorted two-entry registry
with live handles 0 and 2. -/
theorem create_assigns_max_plus_one_witness :
    SortedKeys [((0 : Int), (⟨[]⟩ : StatsCalculator)),
      ((2 : Int), (⟨[Dbl.fin 1]⟩ : StatsCalculator))] ∧
    (([((0 : Int), (⟨[]⟩ : StatsCalculator)), ((2 : Int), ⟨[Dbl.fin 1]⟩)]
        : Registry) = [] →
      (statsCalcCreate [((0 : Int), ⟨[]⟩), ((2 : Int), ⟨[Dbl.fin 1]⟩)]).1
        = 0) ∧
    (([((0 : Int), (⟨[]⟩ : StatsCalculator)), ((2 : Int), ⟨[Dbl.fin 1]⟩)]
        : Registry) ≠ [] →
      ∃ m : Int,
        m ∈ ([((0 : Int), (⟨[]⟩ : StatsCalculator)),
          ((2 : Int), ⟨[Dbl.fin 1]⟩)] : Registry).map Prod.fst ∧
        (∀ p ∈ ([((0 : Int), (⟨[]⟩ : StatsCalculator)),
          ((2 : Int), ⟨[Dbl.fin 1]⟩)] : Registry), p.1 ≤ m) ∧
        (statsCalcCreate [((0 : Int), ⟨[]⟩), ((2 : Int), ⟨[Dbl.fin 1]⟩)]).1
          = m + 1) ∧
    findEntry
      (statsCalcCreate [((0 : Int), ⟨[]⟩), ((2 : Int), ⟨[Dbl.fin 1]⟩)]).1
      (statsCalcCreate [((0 : Int), ⟨[]⟩), ((2 : Int), ⟨[Dbl.fin 1]⟩)]).2
      = some ⟨[]⟩ := by
  have hs : SortedKeys [((0 : Int), (⟨[]⟩ : StatsCalculator)),
      ((2 : Int), (⟨[Dbl.fin 1]⟩ : StatsCalculator))] := by
    norm_num [SortedKeys, List.chain'_cons, List.chain'_singleton]
  exact ⟨hs, create_assigns_max_plus_one _ hs⟩

/-- C2: every C API operation addressed to a handle absent from the registry
is swallowed: the mutating calls and destroy leave the registry unchanged,
writeStats renders nothing and leaves the registry unchanged, and the three
queries return the default 0.0. No error reaches the caller (every modelled
operation is a total function). -/
theorem unknown_handle_swallowed (h : Int) (r : Registry) (v : Dbl)
    (vals : List Dbl) (f : ℚ → ℚ) (hu : findEntry h r = none) :
    statsCalcAppendValue h v r = r ∧
    statsCalcReadFile h vals r = r ∧
    statsCalcWriteStats f h r = (none, r) ∧
    statsCalcGetSum h r = Dbl.fin 0 ∧
    statsCalcGetMean h r = Dbl.fin 0 ∧
    statsCalcGetStdDev f h r = Dbl.fin 0 ∧
    statsCalcDestroy h r = r := by
  have hk := findEntry_eq_none.1 hu
  refine ⟨updateEntry_not_mem hk, updateEntry_not_mem hk, ?_, ?_, ?_, ?_, ?_⟩
  · simp [statsCalcWriteStats, hu]
  · simp [statsCalcGetSum, hu]
  · simp [statsCalcGetMean, hu]
  · simp [statsCalcGetStdDev, hu]
  · exact List.eraseP_of_forall_not (by simpa using hk)

/-- C2 witness: the theorem instantiated at handle 999 on a registry whose
only live handle is 0. -/
theorem unknown_handle_swallowed_witness :
    findEntry 999 [((0 : Int), (⟨[]⟩ : StatsCalculator))] = none ∧
    (statsCalcAppendValue 999 (Dbl.fin 1) [((0 : Int), ⟨[]⟩)]
        = [((0 : Int), ⟨[]⟩)] ∧
      statsCalcReadFile 999 [Dbl.fin 1] [((0 : Int), ⟨[]⟩)]
        = [((0 : Int), ⟨[]⟩)] ∧
      statsCalcWriteStats id 999 [((0 : Int), ⟨[]⟩)]
        = (none, [((0 : Int), ⟨[]⟩)]) ∧
      statsCalcGetSum 999 [((0 : Int), ⟨[]⟩)] = Dbl.fin 0 ∧
      statsCalcGetMean 999 [((0 : Int), ⟨[]⟩)] = Dbl.fin 0 ∧
      statsCalcGetStdDev id 999 [((0 : Int), ⟨[]⟩)] = Dbl.fin 0 ∧
      statsCalcDestroy 999 [((0 : Int), ⟨[]⟩)] = [((0 : Int), ⟨[]⟩)]) := by
  have hu : findEntry 999 [((0 : Int), (⟨[]⟩ : StatsCalculator))] = none :=
    rfl
  exact ⟨hu, unknown_handle_swallowed 999 _ (Dbl.fin 1) [Dbl.fin 1] id hu⟩

/-- C3 counterexample: from the empty registry, two creates return handles 0
and 1; destroying handle 1 and creating again returns 1 a second time, so a
handle assigned and then destroyed is returned again by a later create, and
the sequence of created handles is not monotonic in general. -/
theorem handle_reuse_counterexample :
    (statsCalcCreate []).1 = 0 ∧
    (statsCalcCreate (statsCalcCreate []).2).1 = 1 ∧
    (statsCalcCreate
      (statsCalcDestroy (statsCalcCreate (statsCalcCreate []).2).1
        (statsCalcCreate (statsCalcCreate []).2).2)).1 = 1 := by
  decide

/-- C3 amended: between two statsCalcCreate calls with no intervening destroy
the handles strictly increase (the second handle is the first plus one); once
destroys intervene, a destroyed handle can be returned again by a later
create. -/
theorem create_create_succ (r : Registry) :
    (statsCalcCreate (statsCalcCreate r).2).1 = (statsCalcCreate r).1 + 1 := by
  rw [statsCalcCreate_fst ((statsCalcCreate r).2), statsCalcCreate_snd r,
    List.getLast?_concat]

/-- C4: starting from a registry whose only live handle is 0 (with any
accumulator contents), destroying handle 0 and then creating yields handle 0
again. -/
theorem destroy_zero_create_yields_zero (sc : StatsCalculator) :
    (statsCalcCreate (statsCalcDestroy 0 [((0 : Int), sc)])).1 = 0 := by
  rfl

/-- C5: for every valid registry state (keys in strictly increasing order,
the std::map class invariant), destroying the handle just returned by
statsCalcCreate restores exactly the previous registry: the same live handles
with the same accumulator contents, hence also the same handle from any
subsequent statsCalcCreate. -/
theorem destroy_create_roundtrip (r : Registry) (hs : SortedKeys r) :
    statsCalcDestroy (statsCalcCreate r).1 (statsCalcCreate r).2 = r := by
  rw [statsCalcCreate_snd r, statsCalcDestroy, List.eraseP_append_right]
  · simp [List.eraseP_cons]
  · intro b hb
    simp only [beq_iff_eq]
    exact ne_of_lt (create_key_gt hs b hb)

/-- C5 witness: the theorem instantiated at the sorted two-entry registry
with live handles 1 and 3. -/
theorem destroy_create_roundtrip_witness :
    SortedKeys [((1 : Int), (⟨[Dbl.fin 5]⟩ : StatsCalculator)),
      ((3 : Int), (⟨[]⟩ : StatsCalculator))] ∧
    statsCalcDestroy
      (statsCalcCreate [((1 : Int), (⟨[Dbl.fin 5]⟩ : StatsCalculator)),
        ((3 : Int), ⟨[]⟩)]).1
      (statsCalcCreate [((1 : Int), (⟨[Dbl.fin 5]⟩ : StatsCalculator)),
        ((3 : Int), ⟨[]⟩)]).2
      = [((1 : Int), ⟨[Dbl.fin 5]⟩), ((3 : Int), ⟨[]⟩)] := by
  have hs : SortedKeys [((1 : Int), (⟨[Dbl.fin 5]⟩ : StatsCalculator)),
      ((3 : Int), (⟨[]⟩ : StatsCalculator))] := by
    norm_num [SortedKeys, List.chain'_cons, List.chain'_singleton]
  exact ⟨hs, destroy_create_roundtrip _ hs⟩

/-- C6: for every finite sequence of values handed to a live, initially empty
accumulator through the C API (single appends and whole files, interleaved in
any order), statsCalcGetSum returns the left-to-right floating-point
summation of exactly those values in append order; on the empty accumulator
it returns 0.0. -/
theorem sum_is_ordered_fold (h : Int) (r : Registry) (ops : List AppendOp)
    (hh : findEntry h r = some ⟨[]⟩) :
    statsCalcGetSum h r = Dbl.fin 0 ∧
    statsCalcGetSum h (runAppendOps h ops r)
      = (appendedValues ops).foldl Dbl.add (Dbl.fin 0) := by
  constructor
  · simp [statsCalcGetSum, hh, StatsCalculator.getSum]
  · have hrun := @findEntry_runAppendOps h ops r [] hh
    simp only [List.nil_append] at hrun
    simp [statsCalcGetSum, hrun, StatsCalculator.getSum]

/-- C6 witness: the theorem instantiated at handle 0 of a one-entry registry,
with one single append followed by a two-value file read. -/
theorem sum_is_ordered_fold_witness :
    findEntry 0 [((0 : Int), (⟨[]⟩ : StatsCalculator))] = some ⟨[]⟩ ∧
    (statsCalcGetSum 0 [((0 : Int), (⟨[]⟩ : StatsCalculator))] = Dbl.fin 0 ∧
      statsCalcGetSum 0
        (runAppendOps 0
          [AppendOp.one (Dbl.fin 2), AppendOp.file [Dbl.fin 4, Dbl.fin 6]]
          [((0 : Int), ⟨[]⟩)])
        = (appendedValues
            [AppendOp.one (Dbl.fin 2),
              AppendOp.file [Dbl.fin 4, Dbl.fin 6]]).foldl
          Dbl.add (Dbl.fin 0)) := by
  have hh : findEntry 0 [((0 : Int), (⟨[]⟩ : StatsCalculator))]
      = some ⟨[]⟩ := rfl
  exact ⟨hh, sum_is_ordered_fold 0 _ _ hh⟩

/-- C7: for every live accumulator with a non-empty sample sequence,
statsCalcGetMean returns the sum divided by the sample count, and
statsCalcGetStdDev returns the square root of the left-to-right sum of
squared deviations from that mean divided by the count (the population
formula: the divisor is the count, not count - 1). -/
theorem mean_stddev_population_formulas (h : Int) (r : Registry)
    (sc : StatsCalculator) (f : ℚ → ℚ) (hh : findEntry h r = some sc)
    (hne : sc.numericValues ≠ []) :
    statsCalcGetMean h r
      = Dbl.div (statsCalcGetSum h r) (Dbl.ofCount sc.numericValues.length) ∧
    statsCalcGetStdDev f h r
      = Dbl.sqrtWith f
          (Dbl.div
            ((sc.numericValues.map (fun x =>
                Dbl.mul (Dbl.sub x (statsCalcGetMean h r))
                  (Dbl.sub x (statsCalcGetMean h r)))).foldl
              Dbl.add (Dbl.fin 0))
            (Dbl.ofCount sc.numericValues.length)) := by
  constructor
  · simp [statsCalcGetMean, statsCalcGetSum, hh, StatsCalculator.getMean]
  · simp [statsCalcGetStdDev, statsCalcGetMean, hh,
      StatsCalculator.getStandardDeviation]

/-- C7 witness: the theorem instantiated at an accumulator holding the
samples 2.0, 4.0, 6.0. -/
theorem mean_stddev_population_formulas_witness :
    findEntry 0
        [((0 : Int),
          (⟨[Dbl.fin 2, Dbl.fin 4, Dbl.fin 6]⟩ : StatsCalculator))]
      = some ⟨[Dbl.fin 2, Dbl.fin 4, Dbl.fin 6]⟩ ∧
    (⟨[Dbl.fin 2, Dbl.fin 4, Dbl.fin 6]⟩
        : StatsCalculator).numericValues ≠ [] ∧
    (statsCalcGetMean 0
        [((0 : Int),
          (⟨[Dbl.fin 2, Dbl.fin 4, Dbl.fin 6]⟩ : StatsCalculator))]
      = Dbl.div
          (statsCalcGetSum 0
            [((0 : Int), ⟨[Dbl.fin 2, Dbl.fin 4, Dbl.fin 6]⟩)])
          (Dbl.ofCount
            (⟨[Dbl.fin 2, Dbl.fin 4, Dbl.fin 6]⟩
              : StatsCalculator).numericValues.length) ∧
      statsCalcGetStdDev id 0
          [((0 : Int),
            (⟨[Dbl.fin 2, Dbl.fin 4, Dbl.fin 6]⟩ : StatsCalculator))]
        = Dbl.sqrtWith id
            (Dbl.div
              (((⟨[Dbl.fin 2, Dbl.fin 4, Dbl.fin 6]⟩
                  : StatsCalculator).numericValues.map (fun x =>
                  Dbl.mul
                    (Dbl.sub x
                      (statsCalcGetMean 0
                        [((0 : Int), ⟨[Dbl.fin 2, Dbl.fin 4, Dbl.fin 6]⟩)]))
                    (Dbl.sub x
                      (statsCalcGetMean 0
                        [((0 : Int),
                          ⟨[Dbl.fin 2, Dbl.fin 4, Dbl.fin 6]⟩)])))).foldl
                Dbl.add (Dbl.fin 0))
              (Dbl.ofCount
                (⟨[Dbl.fin 2, Dbl.fin 4, Dbl.fin 6]⟩
                  : StatsCalculator).numericValues.length))) := by
  have hh : findEntry 0
      [((0 : Int),
        (⟨[Dbl.fin 2, Dbl.fin 4, Dbl.fin 6]⟩ : StatsCalculator))]
      = some ⟨[Dbl.fin 2, Dbl.fin 4, Dbl.fin 6]⟩ := rfl
  have hne : (⟨[Dbl.fin 2, Dbl.fin 4, Dbl.fin 6]⟩
      : StatsCalculator).numericValues ≠ [] := by simp
  exact ⟨hh, hne, mean_stddev_population_formulas 0 _ _ id hh hne⟩

/-- C8: mean and standard deviation of an accumulator with zero samples are
the floating-point division-by-zero result NaN (0.0 / 0 inside the formula),
both at the accumulator and through the C API for a live empty instance; the
call itself returns that value rather than surfacing an error (every modelled
operation is a total function). -/
theorem empty_accumulator_nan (f : ℚ → ℚ) (h : Int) (r : Registry)
    (hh : findEntry h r = some ⟨[]⟩) :
    StatsCalculator.getMean ⟨[]⟩ = Dbl.nan ∧
    StatsCalculator.getStandardDeviation f ⟨[]⟩ = Dbl.nan ∧
    statsCalcGetMean h r = Dbl.nan ∧
    statsCalcGetStdDev f h r = Dbl.nan := by
  have hmean : StatsCalculator.getMean ⟨[]⟩ = Dbl.nan := by
    simp [StatsCalculator.getMean, StatsCalculator.getSum, Dbl.div,
      Dbl.ofCount]
  have hsd : StatsCalculator.getStandardDeviation f ⟨[]⟩ = Dbl.nan := by
    simp [StatsCalculator.getStandardDeviation, StatsCalculator.getSum,
      Dbl.div, Dbl.ofCount, Dbl.sqrtWith]
  refine ⟨hmean, hsd, ?_, ?_⟩
  · simp [statsCalcGetMean, hh, hmean]
  · simp [statsCalcGetStdDev, hh, hsd]

/-- C8 witness: the theorem instantiated at handle 0 of a registry whose only
entry is an empty accumulator. -/
theorem empty_accumulator_nan_witness :
    findEntry 0 [((0 : Int), (⟨[]⟩ : StatsCalculator))] = some ⟨[]⟩ ∧
    (StatsCalculator.getMean ⟨[]⟩ = Dbl.nan ∧
      StatsCalculator.getStandardDeviation id ⟨[]⟩ = Dbl.nan ∧
      statsCalcGetMean 0 [((0 : Int), ⟨[]⟩)] = Dbl.nan ∧
      statsCalcGetStdDev id 0 [((0 : Int), ⟨[]⟩)] = Dbl.nan) := by
  have hh : findEntry 0 [((0 : Int), (⟨[]⟩ : StatsCalculator))]
      = some ⟨[]⟩ := rfl
  exact ⟨hh, empty_accumulator_nan id 0 _ hh⟩

/-- C9: in every registry state reachable from the empty registry by C API
calls, every live handle is non-negative, and statsCalcCreate returns a
non-negative handle from every such state. -/
theorem reachable_handles_nonneg (r : Registry) (hr : Reachable r) :
    (∀ p ∈ r, 0 ≤ p.1) ∧ 0 ≤ (statsCalcCreate r).1 := by
  rcases hr with ⟨ops, hops⟩
  have hnil : NonNegKeys ([] : Registry) := by
    intro p hp
    simp at hp
  have hnn : NonNegKeys r := hops ▸ nonNeg_runOps hnil
  exact ⟨hnn, (nonNeg_create hnn).1⟩

/-- C9 witness: the theorem instantiated at the registry reached by a single
create call. -/
theorem reachable_handles_nonneg_witness :
    Reachable [((0 : Int), (⟨[]⟩ : StatsCalculator))] ∧
    ((∀ p ∈ ([((0 : Int), (⟨[]⟩ : StatsCalculator))] : Registry),
        0 ≤ p.1) ∧
      0 ≤ (statsCalcCreate [((0 : Int), ⟨[]⟩)]).1) := by
  have hr : Reachable [((0 : Int), (⟨[]⟩ : StatsCalculator))] :=
    ⟨[COp.create], rfl⟩
  exact ⟨hr, reachable_handles_nonneg _ hr⟩

/-- C10: for every valid registry state (keys in strictly increasing order,
the std::map class invariant), the handle returned by statsCalcCreate is not
live at the moment of the call, and the call leaves every pre-existing entry
intact: lookups of all previously live handles return the same accumulators
afterwards. -/
theorem create_fresh_and_frame (r : Registry) (hs : SortedKeys r) :
    findEntry (statsCalcCreate r).1 r = none ∧
    ∀ h : Int, ∀ sc : StatsCalculator, findEntry h r = some sc →
      findEntry h (statsCalcCreate r).2 = some sc := by
  constructor
  · exact findEntry_eq_none.2 fun p hp => ne_of_lt (create_key_gt hs p hp)
  · intro h sc hfe
    rcases mem_of_findEntry hfe with ⟨p, hp, hph, -⟩
    have hlt : p.1 < (statsCalcCreate r).1 := create_key_gt hs p hp
    rw [statsCalcCreate_snd, findEntry_append_ne]
    · exact hfe
    · rw [← hph]
      exact ne_of_lt hlt

/-- C10 witness: the theorem instantiated at the sorted two-entry registry
with live handles 0 and 2. -/
theorem create_fresh_and_frame_witness :
    SortedKeys [((0 : Int), (⟨[Dbl.fin 7]⟩ : StatsCalculator)),
      ((2 : Int), (⟨[]⟩ : StatsCalculator))] ∧
    (findEntry
        (statsCalcCreate [((0 : Int), (⟨[Dbl.fin 7]⟩ : StatsCalculator)),
          ((2 : Int), ⟨[]⟩)]).1
        [((0 : Int), ⟨[Dbl.fin 7]⟩), ((2 : Int), ⟨[]⟩)] = none ∧
      ∀ h : Int, ∀ sc : StatsCalculator,
        findEntry h [((0 : Int), (⟨[Dbl.fin 7]⟩ : StatsCalculator)),
          ((2 : Int), ⟨[]⟩)] = some sc →
        findEntry h
          (statsCalcCreate [((0 : Int), (⟨[Dbl.fin 7]⟩ : StatsCalculator)),
            ((2 : Int), ⟨[]⟩)]).2 = some sc) := by
  have hs : SortedKeys [((0 : Int), (⟨[Dbl.fin 7]⟩ : StatsCalculator)),
      ((2 : Int), (⟨[]⟩ : StatsCalculator))] := by
    norm_num [SortedKeys, List.chain'_cons, List.chain'_singleton]
  exact ⟨hs, create_fresh_and_frame _ hs⟩
